import Mathlib

/-!
# Verification of the white-noise audio pipeline

Shallow embedding of the core audio functions of the repository
(`generate_white_noise`, `save_wav`, `play_audio`,
`plot_signal_and_spectrum` from the "White noise" terminal script).
Python floats are modelled as rationals `ℚ`; numpy arrays as Lean lists;
errors raised by the runtime as an `Except` result.
-/

namespace WhiteNoise

/-- Python's `int(x)` / numpy's float-to-integer conversion: truncation
toward zero of a real (here rational) value. -/
def truncQ (q : ℚ) : ℤ := if 0 ≤ q then ⌊q⌋ else -⌊-q⌋

/-- Errors the Python runtime can actually raise in the embedded code:
`valueError` is what `np.random.normal` raises on a negative `size`. -/
inductive PyErr where
  | valueError
  deriving DecidableEq

/-- `generate_white_noise(duration_sec, sample_rate, amplitude)` from the
source: `n_samples = int(duration_sec * sample_rate)`; draws `n_samples`
standard-normal samples and multiplies each by `amplitude`.  The random
draws are modelled by an explicit source `normal : ℕ → ℚ` giving the `i`-th
draw.  The source performs no parameter validation; `np.random.normal`
raises `ValueError` when the requested size is negative, and otherwise the
buffer is returned. -/
def generate_white_noise (normal : ℕ → ℚ) (duration_sec : ℚ) (sample_rate : ℤ)
    (amplitude : ℚ) : Except PyErr (List ℚ) :=
  let n_samples : ℤ := truncQ (duration_sec * (sample_rate : ℚ))
  if n_samples < 0 then .error .valueError
  else .ok (((List.range n_samples.toNat).map normal).map (fun x => x * amplitude))

/-- numpy's `ndarray.clip(lo, hi)` on one element (for `lo ≤ hi`):
`max lo (min hi x)`. -/
def np_clip (lo hi x : ℚ) : ℚ := max lo (min hi x)

/-- `.astype(np.int16)` on a value already inside the 16-bit range:
C-style float-to-int conversion, truncation toward zero. -/
def astype_int16 (x : ℚ) : ℤ := truncQ x

/-- The quantization step of `save_wav`, per sample:
`(buffer * max_int16).clip(-max_int16, max_int16).astype(np.int16)`
with `max_int16 = np.iinfo(np.int16).max = 32767`. -/
def quantize (x : ℚ) : ℤ := astype_int16 (np_clip (-32767) 32767 (x * 32767))

/-- The quantized sample stream `wav_int16` that `save_wav` passes to
`scipy.io.wavfile.write`. -/
def save_wav_samples (buffer : List ℚ) : List ℤ := buffer.map quantize

/-- The quantization formula exactly as the specification words it, for
comparison with the source's `quantize`: round the scaled sample to the
nearest integer, then clamp to `[-32768, 32767]`. -/
def quantize_spec (x : ℚ) : ℤ := max (-32768) (min 32767 (round (x * 32767)))

/-- A 16-bit value as two little-endian bytes. -/
def le16n (n : ℕ) : List ℕ := [n % 256, n / 256 % 256]

/-- A 32-bit value as four little-endian bytes. -/
def le32n (n : ℕ) : List ℕ :=
  [n % 256, n / 256 % 256, n / 65536 % 256, n / 16777216 % 256]

/-- A signed 16-bit sample as two little-endian bytes (two's complement). -/
def int16_le (x : ℤ) : List ℕ := le16n (x % 65536).toNat

/-- The little-endian 16-bit PCM byte stream of a sample list. -/
def pcm16_bytes : List ℤ → List ℕ
  | [] => []
  | s :: rest => int16_le s ++ pcm16_bytes rest

/-- Modelled from the spec: the WAV byte stream written by
`scipy.io.wavfile.write` for a mono stream of signed 16-bit samples
(`wavfile.write(filename, sample_rate, wav_int16)` in `save_wav`); the
writer itself is library code outside the repository.  Per the spec, the
file is the standard RIFF layout: a 44-byte header (RIFF tag, chunk size,
WAVE and `fmt ` tags, PCM format 1, one channel, the sample rate, byte
rate, block align 2, 16 bits per sample, `data` tag, data byte count)
followed by the raw little-endian samples. -/
def wavfile_write (sample_rate : ℕ) (samples : List ℤ) : List ℕ :=
  let dataLen := 2 * samples.length
  [82, 73, 70, 70] ++ le32n (36 + dataLen) ++ [87, 65, 86, 69] ++
  [102, 109, 116, 32] ++ le32n 16 ++ le16n 1 ++ le16n 1 ++
  le32n sample_rate ++ le32n (sample_rate * 2) ++ le16n 2 ++ le16n 16 ++
  [100, 97, 116, 97] ++ le32n dataLen ++ pcm16_bytes samples

/-- Decoding of a 32-bit little-endian field (first four bytes). -/
def dec32 : List ℕ → ℕ
  | a :: b :: c :: d :: _ => a + 256 * b + 65536 * c + 16777216 * d
  | _ => 0



theorem pcm16_bytes_length (samples : List ℤ) :
    (pcm16_bytes samples).length = 2 * samples.length := by
  induction samples with
  | nil => rfl
  | cons s rest ih =>
      simp [pcm16_bytes, int16_le, le16n, List.length_append, ih]
      ring

theorem dec32_le32n (n : ℕ) (h : n < 4294967296) : dec32 (le32n n) = n := by
  simp only [dec32, le32n]
  omega

theorem truncQ_of_nonneg (q : ℚ) (h : 0 ≤ q) : truncQ q = ⌊q⌋ := if_pos h

theorem getD_save_wav_samples (buffer : List ℚ) (i : ℕ) (h : i < buffer.length) :
    (save_wav_samples buffer).getD i 0 = quantize (buffer.getD i 0) := by
  have hm : i < (save_wav_samples buffer).length := by
    simpa [save_wav_samples] using h
  rw [List.getD_eq_getElem _ _ hm, List.getD_eq_getElem _ _ h]
  simp [save_wav_samples]

theorem quantize_sat_low (x : ℚ) (h : x * 32767 ≤ -32767) : quantize x = -32767 := by
  have h1 : min (32767 : ℚ) (x * 32767) = x * 32767 :=
    min_eq_right (h.trans (by norm_num))
  have h2 : max (-32767 : ℚ) (x * 32767) = -32767 := max_eq_left h
  simp only [quantize, astype_int16, np_clip, h1, h2]
  norm_num [truncQ]

theorem quantize_sat_high (x : ℚ) (h : 32767 ≤ x * 32767) : quantize x = 32767 := by
  have h1 : min (32767 : ℚ) (x * 32767) = 32767 := min_eq_left h
  have h2 : max (-32767 : ℚ) (32767 : ℚ) = 32767 := max_eq_right (by norm_num)
  simp only [quantize, astype_int16, np_clip, h1, h2]
  norm_num [truncQ]

theorem quantize_in_range (x : ℚ) (h1 : -32767 ≤ x * 32767)
    (h2 : x * 32767 ≤ 32767) : quantize x = truncQ (x * 32767) := by
  have hmin : min (32767 : ℚ) (x * 32767) = x * 32767 := min_eq_right h2
  have hmax : max (-32767 : ℚ) (x * 32767) = x * 32767 := max_eq_right h1
  simp only [quantize, astype_int16, np_clip, hmin, hmax]

theorem quantize_bounds (x : ℚ) : -32767 ≤ quantize x ∧ quantize x ≤ 32767 := by
  have hc1 : (-32767 : ℚ) ≤ np_clip (-32767) 32767 (x * 32767) := le_max_left _ _
  have hc2 : np_clip (-32767 : ℚ) 32767 (x * 32767) ≤ 32767 :=
    max_le (by norm_num) (min_le_left _ _)
  set q : ℚ := np_clip (-32767) 32767 (x * 32767)
  have hfl : (⌊(32767 : ℚ)⌋ : ℤ) = 32767 := by norm_num
  show -32767 ≤ truncQ q ∧ truncQ q ≤ 32767
  unfold truncQ
  split
  next hpos =>
    have hub : ⌊q⌋ ≤ 32767 := hfl ▸ Int.floor_le_floor hc2
    have hlb : (0 : ℤ) ≤ ⌊q⌋ := Int.floor_nonneg.mpr hpos
    omega
  next hneg =>
    push_neg at hneg
    have h4 : (0 : ℚ) ≤ -q := by linarith
    have h5 : -q ≤ 32767 := by linarith
    have h6 : (0 : ℤ) ≤ ⌊-q⌋ := Int.floor_nonneg.mpr h4
    have h7 : ⌊-q⌋ ≤ 32767 := hfl ▸ Int.floor_le_floor h5
    omega

/-- C1 (counterexample): the source quantizer truncates toward zero after
clipping to `[-32767, 32767]`, while the claimed formula rounds to nearest
and clamps to `[-32768, 32767]`.  At the sample `9/327670` (scaled value
`0.9`) the code yields `0` but the claimed formula yields `1`; at the
sample `-2` (scaled value `-65534`) the code yields `-32767` but the
claimed formula yields `-32768`. -/
theorem c1_quantize_counterexample :
    quantize ((9 : ℚ)/327670) = 0 ∧ quantize_spec ((9 : ℚ)/327670) = 1 ∧
    quantize (-2) = -32767 ∧ quantize_spec (-2) = -32768 := by
  refine ⟨?_, ?_, ?_, ?_⟩ <;>
    norm_num [quantize, quantize_spec, astype_int16, np_clip, truncQ, round_eq]

/-- C1 (amended): for every input buffer the quantizer maps sample `b[i]`
to `trunc(clip(b[i] * 32767, -32767, 32767))`: the scaled sample is
clipped to the symmetric range `[-32767, 32767]` (lower bound `-32767`,
not `-32768`) and then truncated toward zero (not rounded to nearest);
scaled values at or below `-32767` saturate to `-32767`, those at or
above `32767` saturate to `32767`, and in-range scaled values are
truncated toward zero. -/
theorem c1_quantizer_amended (buffer : List ℚ) (i : ℕ) (h : i < buffer.length) :
    (save_wav_samples buffer).getD i 0 =
      truncQ (np_clip (-32767) 32767 (buffer.getD i 0 * 32767)) ∧
    (buffer.getD i 0 * 32767 ≤ -32767 →
      (save_wav_samples buffer).getD i 0 = -32767) ∧
    (32767 ≤ buffer.getD i 0 * 32767 →
      (save_wav_samples buffer).getD i 0 = 32767) ∧
    (-32767 ≤ buffer.getD i 0 * 32767 → buffer.getD i 0 * 32767 ≤ 32767 →
      (save_wav_samples buffer).getD i 0 = truncQ (buffer.getD i 0 * 32767)) := by
  rw [getD_save_wav_samples buffer i h]
  exact ⟨rfl, quantize_sat_low _, quantize_sat_high _, quantize_in_range _⟩

/-- C1 (witness): on the one-sample buffer `[-2]` the quantizer saturates
to `-32767`. -/
theorem c1_quantizer_amended_witness :
    (save_wav_samples [(-2 : ℚ)]).getD 0 0 = -32767 :=
  (c1_quantizer_amended [(-2 : ℚ)] 0 (by decide)).2.1 (by norm_num)

/-- C2 (counterexample): `generate_white_noise` performs no parameter
validation: called with `duration_sec = 0` it silently returns the empty
buffer `.ok []` instead of failing with an `InvalidParameter` error. -/
theorem c2_generate_counterexample :
    generate_white_noise (fun _ => 0) 0 48000 (1/5) = .ok [] := by
  norm_num [generate_white_noise, truncQ]

/-- C2 (amended): `generate_white_noise` validates nothing: with
`duration_sec = 0` it silently returns a zero-length buffer and raises no
error; only when the truncated sample count `int(duration_sec *
sample_rate)` is negative does the call fail, and then with the underlying
library's `ValueError`, not a typed `InvalidParameter`; for all valid
parameters (`duration_sec > 0`, `sample_rate > 0`) it returns a buffer and
raises no error. -/
theorem c2_generate_no_validation (normal : ℕ → ℚ) (duration_sec amplitude : ℚ)
    (sample_rate : ℤ) :
    (duration_sec = 0 →
      generate_white_noise normal duration_sec sample_rate amplitude = .ok []) ∧
    (truncQ (duration_sec * (sample_rate : ℚ)) < 0 →
      generate_white_noise normal duration_sec sample_rate amplitude =
        .error .valueError) ∧
    (0 < duration_sec → 0 < sample_rate →
      ∃ l, generate_white_noise normal duration_sec sample_rate amplitude = .ok l) := by
  refine ⟨?_, ?_, ?_⟩
  · rintro rfl
    norm_num [generate_white_noise, truncQ]
  · intro hneg
    simp [generate_white_noise, if_pos hneg]
  · intro hd hsr
    have hq : 0 < duration_sec * (sample_rate : ℚ) :=
      mul_pos hd (by exact_mod_cast hsr)
    have hnn : 0 ≤ truncQ (duration_sec * (sample_rate : ℚ)) := by
      rw [truncQ_of_nonneg _ hq.le]
      exact Int.floor_nonneg.mpr hq.le
    exact ⟨((List.range (truncQ (duration_sec * (sample_rate : ℚ))).toNat).map
      normal).map (fun x => x * amplitude),
      by simp [generate_white_noise, if_neg (not_lt.mpr hnn)]⟩

/-- C3: for every `duration_sec > 0` and `sample_rate > 0`,
`generate_white_noise` succeeds and the returned buffer has length exactly
`floor(duration_sec * sample_rate)`. -/
theorem c3_buffer_length (normal : ℕ → ℚ) (duration_sec amplitude : ℚ)
    (sample_rate : ℤ) (hd : 0 < duration_sec) (hsr : 0 < sample_rate) :
    ∃ l, generate_white_noise normal duration_sec sample_rate amplitude = .ok l ∧
      (l.length : ℤ) = ⌊duration_sec * (sample_rate : ℚ)⌋ := by
  have hq : 0 < duration_sec * (sample_rate : ℚ) :=
    mul_pos hd (by exact_mod_cast hsr)
  have htr : truncQ (duration_sec * (sample_rate : ℚ)) =
      ⌊duration_sec * (sample_rate : ℚ)⌋ := truncQ_of_nonneg _ hq.le
  have hnn : (0 : ℤ) ≤ ⌊duration_sec * (sample_rate : ℚ)⌋ :=
    Int.floor_nonneg.mpr hq.le
  have hx : ¬ (⌊duration_sec * (sample_rate : ℚ)⌋ < 0) := not_lt.mpr hnn
  refine ⟨((List.range (⌊duration_sec * (sample_rate : ℚ)⌋).toNat).map normal).map
    (fun x => x * amplitude), ?_, ?_⟩
  · simp [generate_white_noise, htr, hx]
  · simp [Int.toNat_of_nonneg hnn]

/-- C3 (witness): duration `3/2` at sample rate `4` yields a buffer of
`⌊3/2 * 4⌋ = 6` samples. -/
theorem c3_buffer_length_witness :
    ∃ l, generate_white_noise (fun _ => 0) (3/2) 4 1 = .ok l ∧
      (l.length : ℤ) = ⌊(3/2 : ℚ) * ((4 : ℤ) : ℚ)⌋ :=
  c3_buffer_length (fun _ => 0) (3/2) 1 4 (by norm_num) (by norm_num)

/-- C4: for every buffer of `N` samples, the WAV byte stream is the 44-byte
header followed by `2 * N` data bytes; the subchunk2-size field (bytes
40..43) stores `2 * N` and the chunk-size field (bytes 4..7) stores
`36 + 2 * N`, the RIFF whole-file remainder covering exactly the data, so
both header size fields equal the actual data length; for
`samples.length = 48000` (sample rate 48000 at duration 1.0) the file is
exactly `44 + 96000` bytes. -/
theorem c4_wav_header_sizes (sample_rate : ℕ) (samples : List ℤ) :
    (wavfile_write sample_rate samples).length = 44 + 2 * samples.length ∧
    List.take 4 (List.drop 4 (wavfile_write sample_rate samples)) =
      le32n (36 + 2 * samples.length) ∧
    List.take 4 (List.drop 40 (wavfile_write sample_rate samples)) =
      le32n (2 * samples.length) ∧
    List.drop 44 (wavfile_write sample_rate samples) = pcm16_bytes samples ∧
    (36 + 2 * samples.length < 4294967296 →
      dec32 (le32n (36 + 2 * samples.length)) = 36 + 2 * samples.length) ∧
    (2 * samples.length < 4294967296 →
      dec32 (le32n (2 * samples.length)) = 2 * samples.length) ∧
    (samples.length = 48000 →
      (wavfile_write sample_rate samples).length = 44 + 96000) := by
  have hlen : (wavfile_write sample_rate samples).length = 44 + 2 * samples.length := by
    simp [wavfile_write, le32n, le16n, pcm16_bytes_length]
    omega
  refine ⟨hlen, rfl, rfl, rfl, fun h => dec32_le32n _ h, fun h => dec32_le32n _ h,
    fun h => by rw [hlen, h]⟩

/-- C8 (counterexample): the sample `-2` scales to `-65534`, far below the
representable 16-bit range, whose nearest representable boundary is
`-32768`; the code saturates it to `-32767` instead, so out-of-range values
are not saturated to the nearest representable boundary. -/
theorem c8_saturation_counterexample :
    ((-2 : ℚ) * 32767 < -32768) ∧ quantize (-2) = -32767 ∧
      ((-32767 : ℤ) ≠ -32768) := by
  refine ⟨by norm_num, ?_, by decide⟩
  norm_num [quantize, astype_int16, np_clip, truncQ]

/-- C8 (amended): every quantized sample lies within `[-32768, 32767]`
(indeed within `[-32767, 32767]`); scaled values at or above `32767`
saturate to the boundary `32767`, and scaled values at or below `-32767`
saturate to `-32767` — one step inside the lowest representable value
`-32768` — rather than wrapping modulo `2^16` or raising an error (the
quantizer is a total function). -/
theorem c8_saturation_amended (x : ℚ) :
    (-32768 ≤ quantize x ∧ quantize x ≤ 32767) ∧
    (32767 ≤ x * 32767 → quantize x = 32767) ∧
    (x * 32767 ≤ -32767 → quantize x = -32767) := by
  obtain ⟨hlo, hhi⟩ := quantize_bounds x
  exact ⟨⟨by omega, hhi⟩, quantize_sat_high x, quantize_sat_low x⟩

/-- C10: the quantizer's output always lies in the symmetric range
`[-32767, 32767]`: the lower saturation bound used by the code is
`-32767`, so the value `-32768` is never produced. -/
theorem c10_symmetric_range (x : ℚ) :
    -32767 ≤ quantize x ∧ quantize x ≤ 32767 ∧ quantize x ≠ -32768 := by
  obtain ⟨hlo, hhi⟩ := quantize_bounds x
  exact ⟨hlo, hhi, by omega⟩

/-- The `k`-th coefficient of the discrete Fourier transform of the
real-valued buffer, the quantity `np.fft.rfft(buffer)[k]` computes:
`sum over n of buffer[n] * exp(-2 pi i k n / N)` with `N` the buffer
length. -/
noncomputable def dft_coeff (buffer : List ℚ) (k : ℕ) : ℂ :=
  ∑ n ∈ Finset.range buffer.length,
    ((buffer.getD n 0 : ℚ) : ℂ) *
      Complex.exp (-2 * (Real.pi : ℂ) * Complex.I * (k : ℂ) * (n : ℂ) /
        (buffer.length : ℂ))

/-- `np.fft.rfft(buffer)` in `plot_signal_and_spectrum`: the transform of
the real buffer restricted to the non-negative frequencies, coefficients
`0 .. N/2` (length `N/2 + 1`). -/
noncomputable def np_rfft (buffer : List ℚ) : List ℂ :=
  (List.range (buffer.length / 2 + 1)).map (dft_coeff buffer)

/-- `np.fft.rfftfreq(N, d = 1/sample_rate)` in `plot_signal_and_spectrum`:
frequency bin `k` is `k * sample_rate / N`, for `k = 0 .. N/2`. -/
def np_rfftfreq (n : ℕ) (sample_rate : ℚ) : List ℚ :=
  (List.range (n / 2 + 1)).map (fun (k : ℕ) => (k : ℚ) * sample_rate / (n : ℚ))

/-- `magnitude = np.abs(fft)` in `plot_signal_and_spectrum`: the modulus of
each transform coefficient. -/
noncomputable def spectrum_magnitude (buffer : List ℚ) : List ℝ :=
  (np_rfft buffer).map Complex.abs

/-- `save_wav(buffer, sample_rate, filename)` as a transformer of the
in-memory state: its output is the WAV byte stream built from the
quantized samples, and its second component is the buffer as the call
leaves it — every array operation the source applies (`buffer * 32767`,
`.clip`, `.astype`) allocates a fresh array, so the input buffer is
returned unchanged. -/
def save_wav (buffer : List ℚ) (sample_rate : ℕ) : List ℕ × List ℚ :=
  (wavfile_write sample_rate (save_wav_samples buffer), buffer)

/-- `play_audio(buffer, sample_rate)` as a transformer of the in-memory
state: the first component is the sample stream handed to
`sd.play` (the buffer itself, unmodified), the second the buffer as the
call leaves it. -/
def play_audio (buffer : List ℚ) (sample_rate : ℤ) : List ℚ × List ℚ :=
  (buffer, buffer)

/-- `plot_signal_and_spectrum(buffer, sample_rate)` as a transformer of
the in-memory state: the first component is the spectrum it computes
(frequency bins and magnitudes, via `np.fft.rfft`, `np.fft.rfftfreq` and
`np.abs`, all of which allocate fresh arrays), the second the buffer as
the call leaves it. -/
noncomputable def plot_signal_and_spectrum (buffer : List ℚ) (sample_rate : ℚ) :
    (List ℚ × List ℝ) × List ℚ :=
  ((np_rfftfreq buffer.length sample_rate, spectrum_magnitude buffer), buffer)

theorem np_rfftfreq_getD (n : ℕ) (sample_rate : ℚ) (k : ℕ)
    (hk : k < n / 2 + 1) :
    (np_rfftfreq n sample_rate).getD k 0 = (k : ℚ) * sample_rate / (n : ℚ) := by
  have hk2 : k < (np_rfftfreq n sample_rate).length := by
    simp only [np_rfftfreq, List.length_map, List.length_range]
    exact hk
  rw [List.getD_eq_getElem _ _ hk2]
  simp only [np_rfftfreq, List.getElem_map, List.getElem_range]

/-- C6: for every non-empty buffer and positive sample rate, the
magnitude-mode analysis produces two sequences of the same length
`N/2 + 1`; frequency bin `k` holds `k * sample_rate / N`, the bins are
strictly ascending, and magnitude entry `k` is the modulus of the `k`-th
transform coefficient of the buffer. -/
theorem c6_spectrum_shape (buffer : List ℚ) (sample_rate : ℚ)
    (hb : buffer ≠ []) (hsr : 0 < sample_rate) :
    (spectrum_magnitude buffer).length = buffer.length / 2 + 1 ∧
    (np_rfftfreq buffer.length sample_rate).length = buffer.length / 2 + 1 ∧
    (∀ k, k < buffer.length / 2 + 1 →
      (np_rfftfreq buffer.length sample_rate).getD k 0 =
        (k : ℚ) * sample_rate / (buffer.length : ℚ)) ∧
    List.Pairwise (· < ·) (np_rfftfreq buffer.length sample_rate) ∧
    (∀ k, k < buffer.length / 2 + 1 →
      (spectrum_magnitude buffer).getD k 0 = Complex.abs (dft_coeff buffer k)) := by
  have hN : 0 < buffer.length := List.length_pos.mpr hb
  have hNq : (0 : ℚ) < (buffer.length : ℚ) := by exact_mod_cast hN
  refine ⟨?_, ?_, ?_, ?_, ?_⟩
  · simp only [spectrum_magnitude, np_rfft, List.length_map, List.length_range]
  · simp only [np_rfftfreq, List.length_map, List.length_range]
  · intro k hk
    exact np_rfftfreq_getD _ _ _ hk
  · unfold np_rfftfreq
    rw [List.pairwise_map]
    refine List.Pairwise.imp ?_ (List.pairwise_lt_range _)
    intro a b hab
    have hcast : (a : ℚ) < (b : ℚ) := by exact_mod_cast hab
    exact div_lt_div_of_pos_right (by nlinarith) hNq
  · intro k hk
    have hk2 : k < (spectrum_magnitude buffer).length := by
      simp only [spectrum_magnitude, np_rfft, List.length_map, List.length_range]
      exact hk
    rw [List.getD_eq_getElem _ _ hk2]
    simp only [spectrum_magnitude, np_rfft, List.getElem_map, List.getElem_range]

/-- C6 (witness): for the one-sample buffer `[1]` at sample rate `2` the
analysis produces sequences of length `1/2 + 1 = 1` with the stated
entries. -/
theorem c6_spectrum_shape_witness :
    (spectrum_magnitude [(1 : ℚ)]).length = [(1 : ℚ)].length / 2 + 1 ∧
    (np_rfftfreq [(1 : ℚ)].length 2).length = [(1 : ℚ)].length / 2 + 1 ∧
    (∀ k, k < [(1 : ℚ)].length / 2 + 1 →
      (np_rfftfreq [(1 : ℚ)].length 2).getD k 0 =
        (k : ℚ) * 2 / ([(1 : ℚ)].length : ℚ)) ∧
    List.Pairwise (· < ·) (np_rfftfreq [(1 : ℚ)].length 2) ∧
    (∀ k, k < [(1 : ℚ)].length / 2 + 1 →
      (spectrum_magnitude [(1 : ℚ)]).getD k 0 =
        Complex.abs (dft_coeff [(1 : ℚ)] k)) :=
  c6_spectrum_shape [(1 : ℚ)] 2 (by simp) (by norm_num)

/-- C7: none of the three consumers mutates the generated buffer: after
`save_wav`, `play_audio` or `plot_signal_and_spectrum`, the in-memory
buffer is sample-for-sample the buffer passed in. -/
theorem c7_consumers_preserve_buffer (buffer : List ℚ) (sr_wav : ℕ)
    (sr_play : ℤ) (sr_plot : ℚ) :
    (save_wav buffer sr_wav).2 = buffer ∧
    (play_audio buffer sr_play).2 = buffer ∧
    (plot_signal_and_spectrum buffer sr_plot).2 = buffer :=
  ⟨rfl, rfl, rfl⟩

end WhiteNoise
